import Mathlib

/-!
Shallow embedding of gif2Asci.py (MacXxs/Gif2Ascii) and verification of the
specification's claims about its rendering pipeline.

Python floats are modelled as exact rationals, Python `int()` as truncation
toward zero, and Python `round()` as round-half-to-even.  Fallible code
(`exit(1)` and `ZeroDivisionError`) is modelled with `Except` / `Option`.
-/

namespace Gif2Ascii

/-- Model of a PIL grayscale image: pixel dimensions together with an
intensity function; `pixel x y` is the intensity at column `x`, row `y`. -/
structure PyImage where
  width : ℕ
  height : ℕ
  pixel : ℕ → ℕ → ℕ

/-- Python `int()` applied to a rational value: truncation toward zero. -/
def pyInt (q : ℚ) : ℤ := if q < 0 then -⌊-q⌋ else ⌊q⌋

/-- Python `round()` applied to a rational value: round half to even. -/
def pyRound (q : ℚ) : ℤ :=
  if q - ⌊q⌋ < 1 / 2 then ⌊q⌋
  else if 1 / 2 < q - ⌊q⌋ then ⌊q⌋ + 1
  else if ⌊q⌋ % 2 = 0 then ⌊q⌋ else ⌊q⌋ + 1

/-- The constant GRAYSCALE_GRADIENTS of gif2Asci.py: the built-in glyph
ramps, darkest-first. -/
def GRAYSCALE_GRADIENTS : List (List Char) :=
  ["@%#*+=-:. ".toList, "██▓▒░  ".toList, "■■▣▩▨▢  ".toList]

/-- The default gradient GRAYSCALE_CHARS = GRAYSCALE_GRADIENTS[0]. -/
def GRAYSCALE_CHARS : List Char := GRAYSCALE_GRADIENTS.getD 0 []

/-- PIL `Image.crop((x1, y1, x2, y2))`: the region with those pixel bounds;
out-of-source pixels read as 0 and an inverted box yields an empty image,
as in PIL. -/
def crop (img : PyImage) (x1 y1 x2 y2 : ℤ) : PyImage where
  width := (x2 - x1).toNat
  height := (y2 - y1).toNat
  pixel := fun i j =>
    if 0 ≤ x1 + i ∧ x1 + i < img.width ∧ 0 ≤ y1 + j ∧ y1 + j < img.height
    then img.pixel (x1 + i).toNat (y1 + j).toNat else 0

/-- Sum of all pixel intensities of an image, as in `sum(tile.getdata())`. -/
def pixelSum (tile : PyImage) : ℕ :=
  ∑ j ∈ Finset.range tile.height, ∑ i ∈ Finset.range tile.width, tile.pixel i j

/-- GetAverageBrightness of gif2Asci.py: the floor mean `sum(pixels) //
len(pixels)` of the (already grayscale) tile; `none` models the
ZeroDivisionError raised on an empty tile. -/
def GetAverageBrightness (tile : PyImage) : Option ℕ :=
  if tile.width * tile.height = 0 then none
  else some (pixelSum tile / (tile.width * tile.height))

/-- The tuple returned by GetFrameData of gif2Asci.py. -/
structure FrameData where
  imgWidth : ℕ
  imgHeight : ℕ
  tileWidth : ℚ
  tileHeight : ℚ
  height : ℤ
deriving DecidableEq

/-- Fatal outcomes of the geometry computation: `tooSmall` models the
`exit(1)` on an infeasible geometry, `zeroDivision` a Python
ZeroDivisionError in the dimension arithmetic. -/
inductive RunError where
  | tooSmall
  | zeroDivision
deriving DecidableEq

/-- GetFrameData of gif2Asci.py: computes `tileWidth = imgWidth / width`,
`tileHeight = tileWidth / scale`, `height = int(imgHeight / tileHeight)`
and exits with "Image is too small to process." when `imgWidth < width`
or `height < 1`. -/
def GetFrameData (frame : PyImage) (width : ℕ) (scale : ℚ) :
    Except RunError FrameData :=
  let imgWidth := frame.width
  let imgHeight := frame.height
  if width = 0 then Except.error RunError.zeroDivision
  else
    let tileWidth : ℚ := (imgWidth : ℚ) / (width : ℚ)
    if scale = 0 then Except.error RunError.zeroDivision
    else
      let tileHeight : ℚ := tileWidth / scale
      if tileHeight = 0 then Except.error RunError.zeroDivision
      else
        let height : ℤ := pyInt ((imgHeight : ℚ) / tileHeight)
        if imgWidth < width ∨ height < 1 then Except.error RunError.tooSmall
        else Except.ok ⟨imgWidth, imgHeight, tileWidth, tileHeight, height⟩

/-- The ramp index computed in ProcessFrame:
`round((1 - brightness/255) * (len(ramp) - 1))` when inverse, and
`round((brightness/255) * (len(ramp) - 1))` otherwise. -/
def rampIndex (rampLen : ℕ) (inverse : Bool) (b : ℕ) : ℤ :=
  if inverse then pyRound ((1 - (b : ℚ) / 255) * ((rampLen : ℚ) - 1))
  else pyRound (((b : ℚ) / 255) * ((rampLen : ℚ) - 1))

/-- The glyph appended per tile in ProcessFrame: the ramp character at
`rampIndex`. -/
def mapChar (ramp : List Char) (inverse : Bool) (b : ℕ) : Char :=
  ramp.getD (rampIndex ramp.length inverse b).toNat ' '

/-- Pixel column lower bound of output column `x`: `x1 = int(x * tileWidth)`. -/
def colLo (tileWidth : ℚ) (x : ℕ) : ℤ := pyInt ((x : ℚ) * tileWidth)

/-- Pixel column upper bound of output column `x`:
`x2 = int((x + 1) * tileWidth)`, forced to `imgWidth` on the last column. -/
def colHi (tileWidth : ℚ) (imgWidth width : ℕ) (x : ℕ) : ℤ :=
  if x = width - 1 then (imgWidth : ℤ) else pyInt (((x : ℚ) + 1) * tileWidth)

/-- Pixel row lower bound of output row `y`: `y1 = int(y * tileHeight)`. -/
def rowLo (tileHeight : ℚ) (y : ℕ) : ℤ := pyInt ((y : ℚ) * tileHeight)

/-- Pixel row upper bound of output row `y`:
`y2 = int((y + 1) * tileHeight)`, forced to `imgHeight` on the last row. -/
def rowHi (tileHeight : ℚ) (imgHeight height : ℕ) (y : ℕ) : ℤ :=
  if y = height - 1 then (imgHeight : ℤ) else pyInt (((y : ℚ) + 1) * tileHeight)

/-- The tile cropped for output cell `(x, y)` in ProcessFrame. -/
def tileAt (frame : PyImage) (imgWidth imgHeight : ℕ) (tileWidth tileHeight : ℚ)
    (width height : ℕ) (x y : ℕ) : PyImage :=
  crop frame (colLo tileWidth x) (rowLo tileHeight y)
    (colHi tileWidth imgWidth width x) (rowHi tileHeight imgHeight height y)

/-- ProcessFrame of gif2Asci.py: renders one frame into `height` rows of
`width` glyphs; `none` models the ZeroDivisionError propagated from
GetAverageBrightness on an empty tile. -/
def ProcessFrame (frame : PyImage) (imgWidth imgHeight : ℕ)
    (tileWidth tileHeight : ℚ) (width height : ℕ)
    (ramp : List Char) (inverse : Bool) : Option (List String) :=
  (List.range height).mapM (fun y =>
    ((List.range width).mapM (fun x =>
      (GetAverageBrightness
          (tileAt frame imgWidth imgHeight tileWidth tileHeight width height x y)).map
        (mapChar ramp inverse))).map String.mk)

/-- SaveFrame of gif2Asci.py, acting on a file modelled as its list of
lines: writes the marker line "Frame n" followed by the frame's rows,
truncating the file in mode 'w' and appending in any other mode. -/
def SaveFrame (fileLines : List String) (asciiImg : List String)
    (frameNumber : ℕ) (writeMode : Char) : List String :=
  let newLines := ("Frame " ++ toString frameNumber) :: asciiImg
  if writeMode = 'w' then newLines else fileLines ++ newLines

/-- The save loop of ProcessGif's continuous branch: every frame is saved
with SaveFrame in mode 'a', with the zero-based index from `frame.tell()`. -/
def continuousSaveLoop (fileLines : List String) (frames : List (List String))
    (frameIndex : ℕ) : List String :=
  match frames with
  | [] => fileLines
  | img :: rest => continuousSaveLoop (SaveFrame fileLines img frameIndex 'a') rest (frameIndex + 1)

/-- The block layout "Frame i" followed by that frame's rows, repeated for
each frame with consecutive indices starting at `frameIndex`. -/
def frameBlocks (frames : List (List String)) (frameIndex : ℕ) : List String :=
  match frames with
  | [] => []
  | img :: rest => (("Frame " ++ toString frameIndex) :: img) ++ frameBlocks rest (frameIndex + 1)

/-- The diagnostic printed by ProcessGif for an out-of-range frame request. -/
def frameOutOfRangeMsg (frameToPrint : ℤ) (nFrames : ℕ) : String :=
  "Frame " ++ toString frameToPrint ++ " is out of range. Total frames: " ++ toString nFrames

/-- The mode ProcessGif runs in after inspecting `frameToPrint`. -/
inductive RunMode where
  | continuousMode
  | singleFrame (zeroBasedIndex : ℕ)
  | outOfRange (msg : String)
deriving DecidableEq

/-- Whether a run mode is the fatal out-of-range exit. -/
def RunMode.isFatal : RunMode → Bool
  | .outOfRange _ => true
  | _ => false

/-- The dispatch at the top of ProcessGif: a nonzero `frameToPrint` is
converted to the zero-based index `frameToPrint - 1` and range-checked
against `n_frames`, while `frameToPrint = 0` selects the continuous loop. -/
def processGifMode (frameToPrint : ℤ) (nFrames : ℕ) : RunMode :=
  if frameToPrint ≠ 0 then
    let frame := frameToPrint - 1
    if frame < 0 ∨ (nFrames : ℤ) ≤ frame then
      RunMode.outOfRange (frameOutOfRangeMsg frameToPrint nFrames)
    else RunMode.singleFrame frame.toNat
  else RunMode.continuousMode

/-- File evolution of a ProcessGif run with SAVE_ENABLED, given the
rendered frames: single-frame mode saves one frame in mode 'w', continuous
mode saves every frame in mode 'a', and the out-of-range exit leaves the
file untouched. -/
def runPersistentSink (fileLines : List String) (frameToPrint : ℤ)
    (frames : List (List String)) : List String :=
  match processGifMode frameToPrint frames.length with
  | RunMode.continuousMode => continuousSaveLoop fileLines frames 0
  | RunMode.singleFrame k => SaveFrame fileLines (frames.getD k []) k 'w'
  | RunMode.outOfRange _ => fileLines

/-- The grid of tile boundaries.  `gridBound t limit total k` is the k-th
boundary of the sequence of tile bounds with step `t`: the value shared by
the upper bound of tile `k - 1` and the lower bound of tile `k`, with the
final boundary forced to `limit`. -/
def gridBound (t : ℚ) (limit total : ℕ) (k : ℕ) : ℤ :=
  if k = total then (limit : ℤ) else pyInt ((k : ℚ) * t)

/-- An all-black source frame of the given pixel dimensions. -/
def blackFrame (w h : ℕ) : PyImage := ⟨w, h, fun _ _ => 0⟩

/-- A source frame of the given dimensions whose intensity is 255
everywhere (solid white). -/
def whiteFrame (w h : ℕ) : PyImage := ⟨w, h, fun _ _ => 255⟩

/-! Helper lemmas about the Python primitives. -/

lemma pyInt_of_nonneg {q : ℚ} (h : 0 ≤ q) : pyInt q = ⌊q⌋ :=
  if_neg (not_lt.2 h)

lemma pyInt_nonpos {q : ℚ} (h : q ≤ 0) : pyInt q ≤ 0 := by
  unfold pyInt
  split_ifs with h1
  · have : (0 : ℚ) ≤ -q := by linarith
    have := Int.floor_nonneg.2 this
    omega
  · have hq : q = 0 := le_antisymm h (not_lt.1 h1)
    simp [hq]

lemma pyRound_le (q : ℚ) : (pyRound q : ℚ) ≤ q + 1 / 2 := by
  have h1 := Int.floor_le q
  have h2 := Int.lt_floor_add_one q
  unfold pyRound
  split_ifs <;> push_cast <;> linarith

lemma le_pyRound (q : ℚ) : q - 1 / 2 ≤ (pyRound q : ℚ) := by
  have h1 := Int.floor_le q
  have h2 := Int.lt_floor_add_one q
  unfold pyRound
  split_ifs <;> push_cast <;> linarith

lemma pyRound_intCast (k : ℤ) : pyRound (k : ℚ) = k := by
  unfold pyRound
  rw [Int.floor_intCast]
  norm_num

lemma pyRound_nonneg {q : ℚ} (h : 0 ≤ q) : 0 ≤ pyRound q := by
  by_contra hc
  push_neg at hc
  have h1 : pyRound q ≤ -1 := by omega
  have h2 : ((pyRound q : ℤ) : ℚ) ≤ -1 := by exact_mod_cast h1
  have h3 := le_pyRound q
  linarith

lemma pyRound_lt {q : ℚ} {M : ℤ} (h : q ≤ (M : ℚ) - 1) : pyRound q < M := by
  have h2 := pyRound_le q
  have h3 : ((pyRound q : ℤ) : ℚ) < (M : ℚ) := by linarith
  exact_mod_cast h3

/-! Helper lemmas about the ramp index computed in ProcessFrame. -/

lemma rampIndex_bounds {rampLen b : ℕ} (inverse : Bool)
    (hN : 1 ≤ rampLen) (hb : b ≤ 255) :
    0 ≤ rampIndex rampLen inverse b ∧ rampIndex rampLen inverse b < rampLen := by
  have hb' : ((b : ℚ) / 255) ≤ 1 := by
    rw [div_le_one (by norm_num)]
    exact_mod_cast hb
  have hb0 : (0 : ℚ) ≤ (b : ℚ) / 255 := by positivity
  have hN' : (0 : ℚ) ≤ (rampLen : ℚ) - 1 := by
    have : (1 : ℚ) ≤ (rampLen : ℚ) := by exact_mod_cast hN
    linarith
  unfold rampIndex
  cases inverse with
  | false =>
    simp only [Bool.false_eq_true, if_false]
    constructor
    · exact pyRound_nonneg (mul_nonneg hb0 hN')
    · refine pyRound_lt ?_
      push_cast
      exact mul_le_of_le_one_left hN' hb'
  | true =>
    simp only [if_true]
    constructor
    · exact pyRound_nonneg (mul_nonneg (by linarith) hN')
    · refine pyRound_lt ?_
      push_cast
      exact mul_le_of_le_one_left hN' (by linarith)

/-! Inversion of GetFrameData. -/

lemma GetFrameData_ok_facts {frame : PyImage} {width : ℕ} {scale : ℚ} {fd : FrameData}
    (h : GetFrameData frame width scale = Except.ok fd) :
    fd.imgWidth = frame.width ∧ fd.imgHeight = frame.height ∧
    1 ≤ width ∧ width ≤ fd.imgWidth ∧
    fd.tileWidth = (fd.imgWidth : ℚ) / width ∧ 1 ≤ fd.tileWidth ∧
    fd.tileHeight = fd.tileWidth / scale ∧ 0 < fd.tileHeight ∧
    fd.height = ⌊(fd.imgHeight : ℚ) / fd.tileHeight⌋ ∧ 1 ≤ fd.height ∧
    (fd.height : ℚ) * fd.tileHeight ≤ (fd.imgHeight : ℚ) := by
  by_cases hw : width = 0
  · simp only [GetFrameData, if_pos hw] at h
    exact absurd h (by simp)
  by_cases hs : scale = 0
  · simp only [GetFrameData, if_neg hw, if_pos hs] at h
    exact absurd h (by simp)
  by_cases hth : (frame.width : ℚ) / (width : ℚ) / scale = 0
  · simp only [GetFrameData, if_neg hw, if_neg hs, if_pos hth] at h
    exact absurd h (by simp)
  by_cases hc : frame.width < width ∨
      pyInt ((frame.height : ℚ) / ((frame.width : ℚ) / (width : ℚ) / scale)) < 1
  · simp only [GetFrameData, if_neg hw, if_neg hs, if_neg hth, if_pos hc] at h
    exact absurd h (by simp)
  simp only [GetFrameData, if_neg hw, if_neg hs, if_neg hth, if_neg hc,
    Except.ok.injEq] at h
  push_neg at hc
  obtain ⟨hwle, hh1⟩ := hc
  subst h
  have hw0' : (0 : ℚ) < (width : ℚ) := by exact_mod_cast Nat.pos_of_ne_zero hw
  have htw1 : (1 : ℚ) ≤ (frame.width : ℚ) / width := by
    rw [le_div_iff₀ hw0', one_mul]
    exact_mod_cast hwle
  have hthpos : 0 < (frame.width : ℚ) / width / scale := by
    rcases lt_trichotomy ((frame.width : ℚ) / width / scale) 0 with hlt | heq | hgt
    · exfalso
      have hdivle : (frame.height : ℚ) / ((frame.width : ℚ) / width / scale) ≤ 0 :=
        div_nonpos_iff.2 (Or.inl ⟨by positivity, le_of_lt hlt⟩)
      have := pyInt_nonpos hdivle
      omega
    · exact absurd heq hth
    · exact hgt
  have hdivnn : 0 ≤ (frame.height : ℚ) / ((frame.width : ℚ) / width / scale) := by
    positivity
  have hfloor : pyInt ((frame.height : ℚ) / ((frame.width : ℚ) / width / scale)) =
      ⌊(frame.height : ℚ) / ((frame.width : ℚ) / width / scale)⌋ := pyInt_of_nonneg hdivnn
  refine ⟨rfl, rfl, Nat.pos_of_ne_zero hw, hwle, rfl, htw1, rfl, hthpos, hfloor,
    hh1, ?_⟩
  rw [hfloor, ← le_div_iff₀ hthpos]
  exact Int.floor_le _

lemma gridBound_zero {t : ℚ} {limit total : ℕ} (h : total ≠ 0) :
    gridBound t limit total 0 = 0 := by
  unfold gridBound
  rw [if_neg (fun hh => h hh.symm)]
  norm_num [pyInt]

lemma gridBound_last (t : ℚ) (limit total : ℕ) :
    gridBound t limit total total = limit := if_pos rfl

lemma gridBound_mono {t : ℚ} {limit total : ℕ} (ht : 0 < t)
    (hlim : (total : ℚ) * t ≤ (limit : ℚ)) :
    ∀ i j, i ≤ j → j ≤ total → gridBound t limit total i ≤ gridBound t limit total j := by
  intro i j hij hj
  unfold gridBound
  have hfloor : ∀ k : ℕ, pyInt ((k : ℚ) * t) = ⌊(k : ℚ) * t⌋ := fun k =>
    pyInt_of_nonneg (by positivity)
  have hle : ∀ k : ℕ, k ≤ total → ⌊(k : ℚ) * t⌋ ≤ (limit : ℤ) := by
    intro k hk
    have h1 : (k : ℚ) * t ≤ (total : ℚ) * t := by
      have : (k : ℚ) ≤ (total : ℚ) := by exact_mod_cast hk
      exact mul_le_mul_of_nonneg_right this (le_of_lt ht)
    calc ⌊(k : ℚ) * t⌋ ≤ ⌊(limit : ℚ)⌋ := Int.floor_le_floor (le_trans h1 hlim)
      _ = (limit : ℤ) := Int.floor_natCast limit
  by_cases hi : i = total
  · have hj' : j = total := le_antisymm hj (hi ▸ hij)
    rw [if_pos hi, if_pos hj']
  by_cases hjt : j = total
  · rw [if_pos hjt, if_neg hi, hfloor i]
    exact hle i (by omega)
  · rw [if_neg hi, if_neg hjt, hfloor i, hfloor j]
    refine Int.floor_le_floor ?_
    have : (i : ℚ) ≤ (j : ℚ) := by exact_mod_cast hij
    exact mul_le_mul_of_nonneg_right this (le_of_lt ht)

/-- Any point below the last of a monotone sequence of boundaries starting
at 0 lies in exactly one of the consecutive half-open intervals. -/
lemma boundary_partition (B : ℕ → ℤ) (n : ℕ)
    (hmono : ∀ i j, i ≤ j → j ≤ n → B i ≤ B j)
    (h0 : B 0 = 0) {p : ℤ} (hp0 : 0 ≤ p) (hpn : p < B n) :
    ∃! y, y < n ∧ B y ≤ p ∧ p < B (y + 1) := by
  have hn : n ≠ 0 := by
    rintro rfl
    rw [h0] at hpn
    omega
  have hex : ∃ k, k ≤ n ∧ p < B k := ⟨n, le_refl n, hpn⟩
  have hm := Nat.find_spec hex
  have hmin : ∀ k, k < Nat.find hex → ¬(k ≤ n ∧ p < B k) := fun k hk =>
    Nat.find_min hex hk
  set m := Nat.find hex with hm_def
  have hmn : m ≤ n := hm.1
  have hm0 : m ≠ 0 := by
    intro hh
    have h2 : p < B 0 := by
      rw [← hh]
      exact hm.2
    rw [h0] at h2
    omega
  have hBm1 : B (m - 1) ≤ p := by
    have hnot := hmin (m - 1) (by omega)
    have : ¬ p < B (m - 1) := fun hc => hnot ⟨by omega, hc⟩
    omega
  have hsucc : m - 1 + 1 = m := by omega
  refine ⟨m - 1, ⟨by omega, hBm1, by rw [hsucc]; exact hm.2⟩, ?_⟩
  rintro y' ⟨hy', hle, hlt⟩
  by_contra hne
  rcases Nat.lt_or_ge y' (m - 1) with hlt2 | hge
  · have h1 : B (y' + 1) ≤ B (m - 1) := hmono _ _ (by omega) (by omega)
    omega
  · have hy'm : m ≤ y' := by omega
    have h1 : B m ≤ B y' := hmono _ _ hy'm (by omega)
    have h2 := hm.2
    omega

/-! Bridging the renderer's tile bounds to the boundary sequence. -/

lemma rowLo_eq_gridBound {t : ℚ} {limit n : ℕ} {y : ℕ} (hy : y < n) :
    rowLo t y = gridBound t limit n y := by
  unfold rowLo gridBound
  rw [if_neg (by omega)]

lemma rowHi_eq_gridBound {t : ℚ} {limit n : ℕ} {y : ℕ} (hy : y < n) :
    rowHi t limit n y = gridBound t limit n (y + 1) := by
  unfold rowHi gridBound
  by_cases hl : y = n - 1
  · rw [if_pos hl, if_pos (by omega)]
  · rw [if_neg hl, if_neg (by omega)]
    congr 1
    push_cast
    ring

lemma colLo_eq_rowLo (t : ℚ) (x : ℕ) : colLo t x = rowLo t x := rfl

lemma colHi_eq_rowHi (t : ℚ) (limit n x : ℕ) :
    colHi t limit n x = rowHi t limit n x := rfl

lemma pyRound_zero : pyRound 0 = 0 := by
  simpa using pyRound_intCast 0

lemma pyRound_cast_sub_one (N : ℕ) : pyRound ((N : ℚ) - 1) = (N : ℤ) - 1 := by
  have h : ((N : ℚ) - 1) = (((N : ℤ) - 1 : ℤ) : ℚ) := by push_cast; ring
  rw [h, pyRound_intCast]

lemma rampIndex_false_zero (N : ℕ) : rampIndex N false 0 = 0 := by
  unfold rampIndex
  norm_num [pyRound_zero]

lemma rampIndex_false_255 (N : ℕ) : rampIndex N false 255 = (N : ℤ) - 1 := by
  unfold rampIndex
  norm_num [pyRound_cast_sub_one]

lemma rampIndex_true_zero (N : ℕ) : rampIndex N true 0 = (N : ℤ) - 1 := by
  unfold rampIndex
  norm_num [pyRound_cast_sub_one]

lemma rampIndex_true_255 (N : ℕ) : rampIndex N true 255 = 0 := by
  unfold rampIndex
  norm_num [pyRound_zero]

/-- C1: for every glyph ramp of length N ≥ 1 and brightness sample b in
[0,255], the glyph ProcessFrame appends is `ramp[round((b/255)*(N-1))]`
when not inverted and `ramp[round((1-b/255)*(N-1))]` when inverted, the
computed ramp index always being in range; in particular non-inverted
brightness 0 yields ramp[0] and brightness 255 yields ramp[N-1], and
inverting swaps these endpoints. -/
theorem c1_brightness_to_glyph (ramp : List Char) (inverse : Bool) (b : ℕ)
    (hN : 1 ≤ ramp.length) (hb : b ≤ 255) :
    (0 ≤ rampIndex ramp.length inverse b ∧
      (rampIndex ramp.length inverse b).toNat < ramp.length) ∧
    mapChar ramp inverse b = ramp.getD (rampIndex ramp.length inverse b).toNat ' ' ∧
    mapChar ramp false 0 = ramp.getD 0 ' ' ∧
    mapChar ramp false 255 = ramp.getD (ramp.length - 1) ' ' ∧
    mapChar ramp true 0 = ramp.getD (ramp.length - 1) ' ' ∧
    mapChar ramp true 255 = ramp.getD 0 ' ' := by
  obtain ⟨h0, hlt⟩ := rampIndex_bounds inverse hN hb
  refine ⟨⟨h0, by omega⟩, rfl, ?_, ?_, ?_, ?_⟩
  · unfold mapChar
    rw [rampIndex_false_zero]
    rfl
  · unfold mapChar
    rw [rampIndex_false_255]
    congr 1
    omega
  · unfold mapChar
    rw [rampIndex_true_zero]
    congr 1
    omega
  · unfold mapChar
    rw [rampIndex_true_255]
    rfl

/-- Witness for C1 at the default ramp, brightness 100, not inverted. -/
theorem c1_brightness_to_glyph_witness :
    (0 ≤ rampIndex GRAYSCALE_CHARS.length false 100 ∧
      (rampIndex GRAYSCALE_CHARS.length false 100).toNat < GRAYSCALE_CHARS.length) ∧
    mapChar GRAYSCALE_CHARS false 100 =
      GRAYSCALE_CHARS.getD (rampIndex GRAYSCALE_CHARS.length false 100).toNat ' ' ∧
    mapChar GRAYSCALE_CHARS false 0 = GRAYSCALE_CHARS.getD 0 ' ' ∧
    mapChar GRAYSCALE_CHARS false 255 =
      GRAYSCALE_CHARS.getD (GRAYSCALE_CHARS.length - 1) ' ' ∧
    mapChar GRAYSCALE_CHARS true 0 =
      GRAYSCALE_CHARS.getD (GRAYSCALE_CHARS.length - 1) ' ' ∧
    mapChar GRAYSCALE_CHARS true 255 = GRAYSCALE_CHARS.getD 0 ' ' :=
  c1_brightness_to_glyph GRAYSCALE_CHARS false 100 (by decide) (by decide)

/-- C2: for positive source dimensions, requested width and scale,
GetFrameData returns exactly `tileWidth = sourceWidth / outputWidthChars`,
`tileHeight = tileWidth / scale` and
`outputHeightChars = floor(sourceHeight / tileHeight)` when the geometry
is feasible, and fails with the fatal TooSmall error exactly when
`sourceWidth < outputWidthChars` or `outputHeightChars < 1`. -/
theorem c2_geometry_resolver (frame : PyImage) (width : ℕ) (scale : ℚ)
    (hW : 1 ≤ frame.width) (hH : 1 ≤ frame.height) (hw : 1 ≤ width)
    (hs : 0 < scale) :
    (GetFrameData frame width scale =
        Except.ok ⟨frame.width, frame.height, (frame.width : ℚ) / width,
          (frame.width : ℚ) / width / scale,
          ⌊(frame.height : ℚ) / ((frame.width : ℚ) / width / scale)⌋⟩ ↔
      (width ≤ frame.width ∧
        1 ≤ ⌊(frame.height : ℚ) / ((frame.width : ℚ) / width / scale)⌋)) ∧
    (GetFrameData frame width scale = Except.error RunError.tooSmall ↔
      (frame.width < width ∨
        ⌊(frame.height : ℚ) / ((frame.width : ℚ) / width / scale)⌋ < 1)) := by
  have hw0 : ¬ width = 0 := by omega
  have hs0 : ¬ scale = 0 := ne_of_gt hs
  have hWQ : (0 : ℚ) < (frame.width : ℚ) := by exact_mod_cast hW
  have hwQ : (0 : ℚ) < (width : ℚ) := by
    have : 0 < width := hw
    exact_mod_cast this
  have hth : (0 : ℚ) < (frame.width : ℚ) / width / scale := by positivity
  have hth0 : ¬ (frame.width : ℚ) / (width : ℚ) / scale = 0 := ne_of_gt hth
  have hpy : pyInt ((frame.height : ℚ) / ((frame.width : ℚ) / (width : ℚ) / scale)) =
      ⌊(frame.height : ℚ) / ((frame.width : ℚ) / width / scale)⌋ :=
    pyInt_of_nonneg (by positivity)
  simp only [GetFrameData, if_neg hw0, if_neg hs0, if_neg hth0, hpy]
  by_cases hc : frame.width < width ∨
      ⌊(frame.height : ℚ) / ((frame.width : ℚ) / width / scale)⌋ < 1
  · rw [if_pos hc]
    constructor
    · simp only [reduceCtorEq, false_iff]
      rintro ⟨h1, h2⟩
      omega
    · simp only [true_iff]
      exact hc
  · rw [if_neg hc]
    push_neg at hc
    constructor
    · simp only [true_iff]
      exact ⟨hc.1, hc.2⟩
    · simp only [reduceCtorEq, false_iff]
      rintro (h1 | h2) <;> omega

/-- Witness for C2 at a 160x100 source, width 10, scale 1/2. -/
theorem c2_geometry_resolver_witness :
    (GetFrameData (blackFrame 160 100) 10 (1 / 2) =
        Except.ok ⟨(blackFrame 160 100).width, (blackFrame 160 100).height,
          ((blackFrame 160 100).width : ℚ) / 10,
          ((blackFrame 160 100).width : ℚ) / 10 / (1 / 2),
          ⌊((blackFrame 160 100).height : ℚ) /
            (((blackFrame 160 100).width : ℚ) / 10 / (1 / 2))⌋⟩ ↔
      (10 ≤ (blackFrame 160 100).width ∧
        1 ≤ ⌊((blackFrame 160 100).height : ℚ) /
          (((blackFrame 160 100).width : ℚ) / 10 / (1 / 2))⌋)) ∧
    (GetFrameData (blackFrame 160 100) 10 (1 / 2) = Except.error RunError.tooSmall ↔
      ((blackFrame 160 100).width < 10 ∨
        ⌊((blackFrame 160 100).height : ℚ) /
          (((blackFrame 160 100).width : ℚ) / 10 / (1 / 2))⌋ < 1)) :=
  c2_geometry_resolver (blackFrame 160 100) 10 (1 / 2) (by decide) (by decide)
    (by decide) (by norm_num)

/-- C3: for every geometry accepted by GetFrameData, the tile rectangles
sampled by ProcessFrame exactly partition the source image: consecutive
row and column bounds coincide, the last row's upper bound is
`sourceHeight` and the last column's upper bound is `sourceWidth`, and
every pixel row (resp. column) index lies in exactly one tile row (resp.
column) interval. -/
theorem c3_tile_partition {frame : PyImage} {width : ℕ} {scale : ℚ}
    {fd : FrameData} (h : GetFrameData frame width scale = Except.ok fd) :
    (∀ y, y + 1 < fd.height.toNat →
      rowHi fd.tileHeight fd.imgHeight fd.height.toNat y = rowLo fd.tileHeight (y + 1)) ∧
    (∀ x, x + 1 < width →
      colHi fd.tileWidth fd.imgWidth width x = colLo fd.tileWidth (x + 1)) ∧
    rowHi fd.tileHeight fd.imgHeight fd.height.toNat (fd.height.toNat - 1) =
      (fd.imgHeight : ℤ) ∧
    colHi fd.tileWidth fd.imgWidth width (width - 1) = (fd.imgWidth : ℤ) ∧
    (∀ p : ℕ, p < fd.imgHeight → ∃! y, y < fd.height.toNat ∧
      rowLo fd.tileHeight y ≤ (p : ℤ) ∧
      (p : ℤ) < rowHi fd.tileHeight fd.imgHeight fd.height.toNat y) ∧
    (∀ p : ℕ, p < fd.imgWidth → ∃! x, x < width ∧
      colLo fd.tileWidth x ≤ (p : ℤ) ∧
      (p : ℤ) < colHi fd.tileWidth fd.imgWidth width x) := by
  obtain ⟨hiw, hih, hw1, hwle, htw, htw1, hth, hthpos, hfl, hh1, hmul⟩ :=
    GetFrameData_ok_facts h
  have htwpos : 0 < fd.tileWidth := lt_of_lt_of_le one_pos htw1
  have hn1 : 1 ≤ fd.height.toNat := by omega
  have hncast : ((fd.height.toNat : ℕ) : ℤ) = fd.height := Int.toNat_of_nonneg (by omega)
  have hnQ : ((fd.height.toNat : ℕ) : ℚ) * fd.tileHeight ≤ (fd.imgHeight : ℚ) := by
    have hq : ((fd.height.toNat : ℕ) : ℚ) = ((fd.height : ℤ) : ℚ) := by
      exact_mod_cast hncast
    rw [hq]
    exact hmul
  have hwne : ((width : ℕ) : ℚ) ≠ 0 := by
    have hpos : (0 : ℚ) < (width : ℚ) := by exact_mod_cast hw1
    exact hpos.ne'
  have hwQ : ((width : ℕ) : ℚ) * fd.tileWidth ≤ (fd.imgWidth : ℚ) := by
    rw [htw, mul_comm, div_mul_cancel₀ ((fd.imgWidth : ℚ)) hwne]
  refine ⟨?_, ?_, ?_, ?_, ?_, ?_⟩
  · intro y hy
    unfold rowHi rowLo
    rw [if_neg (by omega)]
    congr 1
    push_cast
    ring
  · intro x hx
    unfold colHi colLo
    rw [if_neg (by omega)]
    congr 1
    push_cast
    ring
  · unfold rowHi
    rw [if_pos rfl]
  · unfold colHi
    rw [if_pos rfl]
  · intro p hp
    have hpn' : (p : ℤ) <
        gridBound fd.tileHeight fd.imgHeight fd.height.toNat fd.height.toNat := by
      rw [gridBound_last]
      exact_mod_cast hp
    have hpart := boundary_partition (gridBound fd.tileHeight fd.imgHeight fd.height.toNat)
      fd.height.toNat (gridBound_mono hthpos hnQ) (gridBound_zero (by omega))
      (Int.natCast_nonneg p) hpn'
    obtain ⟨y, ⟨hy, h1, h2⟩, hu⟩ := hpart
    refine ⟨y, ⟨hy, ?_, ?_⟩, ?_⟩
    · rw [@rowLo_eq_gridBound fd.tileHeight fd.imgHeight fd.height.toNat y hy]
      exact h1
    · rw [@rowHi_eq_gridBound fd.tileHeight fd.imgHeight fd.height.toNat y hy]
      exact h2
    · rintro y' ⟨hy', k1, k2⟩
      refine hu y' ⟨hy', ?_, ?_⟩
      · rwa [@rowLo_eq_gridBound fd.tileHeight fd.imgHeight fd.height.toNat y' hy'] at k1
      · rwa [@rowHi_eq_gridBound fd.tileHeight fd.imgHeight fd.height.toNat y' hy'] at k2
  · intro p hp
    have hpn' : (p : ℤ) < gridBound fd.tileWidth fd.imgWidth width width := by
      rw [gridBound_last]
      exact_mod_cast hp
    have hpart := boundary_partition (gridBound fd.tileWidth fd.imgWidth width)
      width (gridBound_mono htwpos hwQ) (gridBound_zero (by omega))
      (Int.natCast_nonneg p) hpn'
    obtain ⟨x, ⟨hx, h1, h2⟩, hu⟩ := hpart
    refine ⟨x, ⟨hx, ?_, ?_⟩, ?_⟩
    · rw [colLo_eq_rowLo, @rowLo_eq_gridBound fd.tileWidth fd.imgWidth width x hx]
      exact h1
    · rw [colHi_eq_rowHi, @rowHi_eq_gridBound fd.tileWidth fd.imgWidth width x hx]
      exact h2
    · rintro x' ⟨hx', k1, k2⟩
      refine hu x' ⟨hx', ?_, ?_⟩
      · rwa [colLo_eq_rowLo, @rowLo_eq_gridBound fd.tileWidth fd.imgWidth width x' hx'] at k1
      · rwa [colHi_eq_rowHi, @rowHi_eq_gridBound fd.tileWidth fd.imgWidth width x' hx'] at k2

/-- Witness for C3 at a 2x2 source, width 1, scale 1. -/
theorem c3_tile_partition_witness :
    (∀ y, y + 1 < (1 : ℤ).toNat →
      rowHi 2 2 (1 : ℤ).toNat y = rowLo 2 (y + 1)) ∧
    (∀ x, x + 1 < 1 → colHi 2 2 1 x = colLo 2 (x + 1)) ∧
    rowHi 2 2 (1 : ℤ).toNat ((1 : ℤ).toNat - 1) = (2 : ℤ) ∧
    colHi 2 2 1 (1 - 1) = (2 : ℤ) ∧
    (∀ p : ℕ, p < 2 → ∃! y, y < (1 : ℤ).toNat ∧
      rowLo 2 y ≤ (p : ℤ) ∧ (p : ℤ) < rowHi 2 2 (1 : ℤ).toNat y) ∧
    (∀ p : ℕ, p < 2 → ∃! x, x < 1 ∧
      colLo 2 x ≤ (p : ℤ) ∧ (p : ℤ) < colHi 2 2 1 x) :=
  c3_tile_partition
    (by norm_num [GetFrameData, blackFrame, pyInt] :
      GetFrameData (blackFrame 2 2) 1 1 = Except.ok ⟨2, 2, 2, 2, 1⟩)

/-! Helper lemmas about the tile sampler. -/

lemma nat_div_cast_eq_floor (a b : ℕ) :
    ((a / b : ℕ) : ℤ) = ⌊(a : ℚ) / (b : ℚ)⌋ := by
  have h1 : ((a : ℚ)) = (((a : ℤ)) : ℚ) := by push_cast; rfl
  rw [h1, Rat.floor_intCast_div_natCast]
  exact_mod_cast (Int.natCast_div a b).symm

lemma pixelSum_le {tile : PyImage} (hpix : ∀ i j, tile.pixel i j ≤ 255) :
    pixelSum tile ≤ 255 * (tile.width * tile.height) := by
  unfold pixelSum
  calc ∑ j ∈ Finset.range tile.height, ∑ i ∈ Finset.range tile.width, tile.pixel i j
      ≤ ∑ _j ∈ Finset.range tile.height, ∑ _i ∈ Finset.range tile.width, 255 :=
        Finset.sum_le_sum fun j _ => Finset.sum_le_sum fun i _ => hpix i j
    _ = 255 * (tile.width * tile.height) := by
        simp [Finset.sum_const, Finset.card_range]
        ring

lemma avg_le_255 {tile : PyImage} (hpix : ∀ i j, tile.pixel i j ≤ 255) :
    pixelSum tile / (tile.width * tile.height) ≤ 255 := by
  by_cases hc : tile.width * tile.height = 0
  · simp [hc]
  · calc pixelSum tile / (tile.width * tile.height)
        ≤ 255 * (tile.width * tile.height) / (tile.width * tile.height) :=
          Nat.div_le_div_right (pixelSum_le hpix)
      _ = 255 := by
          rw [Nat.mul_comm]
          exact Nat.mul_div_cancel_left 255 (Nat.pos_of_ne_zero hc)

lemma getAverageBrightness_le_255 {tile : PyImage} {b : ℕ}
    (hpix : ∀ i j, tile.pixel i j ≤ 255)
    (h : GetAverageBrightness tile = some b) : b ≤ 255 := by
  unfold GetAverageBrightness at h
  split_ifs at h with hc
  simp only [Option.some.injEq] at h
  rw [← h]
  exact avg_le_255 hpix

lemma crop_pixel_le {img : PyImage} (hpix : ∀ i j, img.pixel i j ≤ 255)
    (x1 y1 x2 y2 : ℤ) : ∀ i j, (crop img x1 y1 x2 y2).pixel i j ≤ 255 := by
  intro i j
  unfold crop
  simp only
  split_ifs
  · exact hpix _ _
  · omega

/-- C5: for every tile region containing at least one pixel whose
intensities are grayscale values, GetAverageBrightness returns the
integer-truncated (floor) mean of the pixel intensities of the region,
an integer in [0, 255]. -/
theorem c5_average_brightness (tile : PyImage)
    (hpos : 0 < tile.width * tile.height)
    (hpix : ∀ i j, tile.pixel i j ≤ 255) :
    GetAverageBrightness tile = some (pixelSum tile / (tile.width * tile.height)) ∧
    ((pixelSum tile / (tile.width * tile.height) : ℕ) : ℤ) =
      ⌊(pixelSum tile : ℚ) / ((tile.width * tile.height : ℕ) : ℚ)⌋ ∧
    pixelSum tile / (tile.width * tile.height) ≤ 255 := by
  have hne : tile.width * tile.height ≠ 0 := by omega
  exact ⟨by simp [GetAverageBrightness, hne], nat_div_cast_eq_floor _ _, avg_le_255 hpix⟩

/-- Witness for C5 at a solid-white 2x2 tile. -/
theorem c5_average_brightness_witness :
    GetAverageBrightness (whiteFrame 2 2) =
      some (pixelSum (whiteFrame 2 2) / ((whiteFrame 2 2).width * (whiteFrame 2 2).height)) ∧
    ((pixelSum (whiteFrame 2 2) / ((whiteFrame 2 2).width * (whiteFrame 2 2).height) : ℕ) : ℤ) =
      ⌊(pixelSum (whiteFrame 2 2) : ℚ) /
        (((whiteFrame 2 2).width * (whiteFrame 2 2).height : ℕ) : ℚ)⌋ ∧
    pixelSum (whiteFrame 2 2) / ((whiteFrame 2 2).width * (whiteFrame 2 2).height) ≤ 255 :=
  c5_average_brightness (whiteFrame 2 2) (by decide) (fun _ _ => le_refl 255)

/-! Helper lemmas for the shape of a rendered frame. -/

lemma mapM'_option_eq_some {α β : Type} {f : α → Option β} :
    ∀ {l : List α} {out : List β}, l.mapM' f = some out →
      out.length = l.length ∧ ∀ b ∈ out, ∃ a, a ∈ l ∧ f a = some b := by
  intro l
  induction l with
  | nil =>
    intro out h
    simp only [List.mapM', pure, Option.some.injEq] at h
    subst h
    simp
  | cons a l ih =>
    intro out h
    simp only [List.mapM'] at h
    cases hfa : f a with
    | none => simp [hfa] at h
    | some b =>
      cases hml : l.mapM' f with
      | none => simp [hfa, hml] at h
      | some bs =>
        simp [hfa, hml] at h
        subst h
        obtain ⟨hlen, hmem⟩ := ih hml
        refine ⟨by simpa using hlen, ?_⟩
        intro c hc
        rcases List.mem_cons.1 hc with rfl | hc'
        · exact ⟨a, List.mem_cons_self a l, hfa⟩
        · obtain ⟨a', ha', hfa'⟩ := hmem c hc'
          exact ⟨a', List.mem_cons_of_mem a ha', hfa'⟩

lemma mapM_option_eq_some {α β : Type} {f : α → Option β} {l : List α}
    {out : List β} (h : l.mapM f = some out) :
    out.length = l.length ∧ ∀ b ∈ out, ∃ a, a ∈ l ∧ f a = some b := by
  rw [← List.mapM'_eq_mapM f l] at h
  exact mapM'_option_eq_some h

lemma mapChar_mem {ramp : List Char} {b : ℕ} (inverse : Bool)
    (hN : 1 ≤ ramp.length) (hb : b ≤ 255) : mapChar ramp inverse b ∈ ramp := by
  obtain ⟨h0, hlt⟩ := rampIndex_bounds inverse hN hb
  have hlt' : (rampIndex ramp.length inverse b).toNat < ramp.length := by omega
  unfold mapChar
  rw [List.getD_eq_getElem?_getD, List.getElem?_eq_getElem hlt']
  simp only [Option.getD_some]
  exact List.getElem_mem hlt'

/-- C4: for every source frame with grayscale intensities, every geometry
accepted by GetFrameData and every nonempty glyph ramp, a rendered frame
ProcessFrame produces consists of exactly `outputHeightChars` lines, each
of length exactly `outputWidthChars`, with every character taken from the
glyph ramp, regardless of the frame's pixel content. -/
theorem c4_rendered_frame_shape {frame : PyImage} {width : ℕ} {scale : ℚ}
    {fd : FrameData} {ramp : List Char} {inverse : Bool} {out : List String}
    (hgeo : GetFrameData frame width scale = Except.ok fd)
    (hN : 1 ≤ ramp.length)
    (hpix : ∀ i j, frame.pixel i j ≤ 255)
    (hrun : ProcessFrame frame fd.imgWidth fd.imgHeight fd.tileWidth fd.tileHeight
      width fd.height.toNat ramp inverse = some out) :
    out.length = fd.height.toNat ∧
    ∀ line ∈ out, line.length = width ∧ ∀ c ∈ line.toList, c ∈ ramp := by
  unfold ProcessFrame at hrun
  obtain ⟨hlen, hmem⟩ := mapM_option_eq_some hrun
  refine ⟨by simpa using hlen, ?_⟩
  intro line hline
  obtain ⟨y, _hy, hfy⟩ := hmem line hline
  rw [Option.map_eq_some'] at hfy
  obtain ⟨cs, hcs, hmk⟩ := hfy
  obtain ⟨hcslen, hcsmem⟩ := mapM_option_eq_some hcs
  subst hmk
  constructor
  · simpa using hcslen
  · intro c hc
    have hc' : c ∈ cs := hc
    obtain ⟨x, _hx, hfx⟩ := hcsmem c hc'
    rw [Option.map_eq_some'] at hfx
    obtain ⟨b, hb, hbc⟩ := hfx
    have hb255 : b ≤ 255 :=
      getAverageBrightness_le_255 (crop_pixel_le hpix _ _ _ _) hb
    rw [← hbc]
    exact mapChar_mem inverse hN hb255

/-- Witness for C4: a 1x1 all-black source at width 1, scale 1 renders to
the single line "@". -/
theorem c4_rendered_frame_shape_witness :
    (["@"] : List String).length = (1 : ℤ).toNat ∧
    ∀ line ∈ (["@"] : List String), line.length = 1 ∧
      ∀ c ∈ line.toList, c ∈ GRAYSCALE_CHARS :=
  c4_rendered_frame_shape
    (by norm_num [GetFrameData, blackFrame, pyInt] :
      GetFrameData (blackFrame 1 1) 1 1 = Except.ok ⟨1, 1, 1, 1, 1⟩)
    (by decide)
    (fun _ _ => Nat.zero_le 255)
    (show ProcessFrame (blackFrame 1 1) 1 1 1 1 1 1 GRAYSCALE_CHARS false = some ["@"] by
      simp only [ProcessFrame, ← List.mapM'_eq_mapM]
      norm_num [List.mapM', List.range_succ, List.range_zero, tileAt, crop, colLo,
        colHi, rowLo, rowHi, pyInt, GetAverageBrightness, pixelSum, blackFrame,
        Finset.sum_range_one, mapChar, rampIndex_false_zero]
      decide)

/-! Helper lemma for tile positivity: with a step of at least one pixel,
every tile interval is nonempty. -/

lemma bounds_step {t : ℚ} {limit total : ℕ} {k : ℕ} (ht : 1 ≤ t)
    (hlim : (total : ℚ) * t ≤ (limit : ℚ)) (hk : k < total) :
    rowLo t k < rowHi t limit total k := by
  unfold rowLo rowHi
  have h0 : (0 : ℚ) ≤ (k : ℚ) * t := by positivity
  rw [pyInt_of_nonneg h0]
  by_cases hl : k = total - 1
  · rw [if_pos hl]
    have h1 : 1 ≤ total := by omega
    have hkq : (k : ℚ) = (total : ℚ) - 1 := by
      subst hl
      push_cast [Nat.cast_sub h1]
      ring
    have hexp : ((total : ℚ) - 1) * t = (total : ℚ) * t - t := by ring
    have hle : (k : ℚ) * t ≤ (limit : ℚ) - 1 := by
      rw [hkq, hexp]
      linarith
    have hfl : ⌊(k : ℚ) * t⌋ ≤ ⌊(limit : ℚ) - 1⌋ := Int.floor_le_floor hle
    have hfl2 : ⌊(limit : ℚ) - 1⌋ = (limit : ℤ) - 1 := by
      rw [show ((limit : ℚ) - 1) = ((limit : ℚ) - ((1 : ℤ) : ℚ)) by push_cast; ring,
        Int.floor_sub_int, Int.floor_natCast]
    omega
  · rw [if_neg hl, pyInt_of_nonneg (by positivity)]
    have hstep : (k : ℚ) * t + 1 ≤ ((k : ℚ) + 1) * t := by
      have hexp : ((k : ℚ) + 1) * t = (k : ℚ) * t + t := by ring
      linarith
    calc ⌊(k : ℚ) * t⌋ < ⌊(k : ℚ) * t⌋ + 1 := by omega
      _ = ⌊(k : ℚ) * t + 1⌋ := (Int.floor_add_one _).symm
      _ ≤ ⌊((k : ℚ) + 1) * t⌋ := Int.floor_le_floor hstep

/-- Counterexample to C6: the geometry of a 10x10 source at width 10 and
scale 2 passes GetFrameData's feasibility check with tileHeight 1/2, yet
the very first tile ProcessFrame would sample has zero area, and the
sampler's division by the pixel count is a division by zero. -/
theorem c6_counterexample :
    GetFrameData (blackFrame 10 10) 10 2 = Except.ok ⟨10, 10, 1, 1 / 2, 20⟩ ∧
    (tileAt (blackFrame 10 10) 10 10 1 (1 / 2) 10 20 0 0).width *
      (tileAt (blackFrame 10 10) 10 10 1 (1 / 2) 10 20 0 0).height = 0 ∧
    GetAverageBrightness (tileAt (blackFrame 10 10) 10 10 1 (1 / 2) 10 20 0 0) = none := by
  have h12 : ⌊(2⁻¹ : ℚ)⌋ = 0 := by
    rw [Int.floor_eq_zero_iff]
    constructor <;> norm_num
  have h12b : ⌊(1 / 2 : ℚ)⌋ = 0 := by
    rw [Int.floor_eq_zero_iff]
    constructor <;> norm_num
  refine ⟨?_, ?_, ?_⟩ <;>
    norm_num [GetFrameData, blackFrame, pyInt, tileAt, crop, colLo, colHi, rowLo,
      rowHi, GetAverageBrightness, h12, h12b]

/-- C6 amended: for every geometry that passes GetFrameData's feasibility
check whose tile height is at least one pixel (equivalently, scale at most
tileWidth), every tile rectangle ProcessFrame passes to the sampler has
positive pixel count, so the sampler's division by the pixel count never
divides by zero. -/
theorem c6_amended_positive_tiles {frame : PyImage} {width : ℕ} {scale : ℚ}
    {fd : FrameData} (h : GetFrameData frame width scale = Except.ok fd)
    (hth1 : 1 ≤ fd.tileHeight) :
    ∀ x y, x < width → y < fd.height.toNat →
      0 < (tileAt frame fd.imgWidth fd.imgHeight fd.tileWidth fd.tileHeight width
            fd.height.toNat x y).width *
          (tileAt frame fd.imgWidth fd.imgHeight fd.tileWidth fd.tileHeight width
            fd.height.toNat x y).height ∧
      (GetAverageBrightness (tileAt frame fd.imgWidth fd.imgHeight fd.tileWidth
        fd.tileHeight width fd.height.toNat x y)).isSome = true := by
  obtain ⟨hiw, hih, hw1, hwle, htw, htw1, hth, hthpos, hfl, hh1, hmul⟩ :=
    GetFrameData_ok_facts h
  have hncast : ((fd.height.toNat : ℕ) : ℤ) = fd.height := Int.toNat_of_nonneg (by omega)
  have hnQ : ((fd.height.toNat : ℕ) : ℚ) * fd.tileHeight ≤ (fd.imgHeight : ℚ) := by
    have hq : ((fd.height.toNat : ℕ) : ℚ) = ((fd.height : ℤ) : ℚ) := by
      exact_mod_cast hncast
    rw [hq]
    exact hmul
  have hwne : ((width : ℕ) : ℚ) ≠ 0 := by
    have hpos : (0 : ℚ) < (width : ℚ) := by exact_mod_cast hw1
    exact hpos.ne'
  have hwQ : ((width : ℕ) : ℚ) * fd.tileWidth ≤ (fd.imgWidth : ℚ) := by
    rw [htw, mul_comm, div_mul_cancel₀ ((fd.imgWidth : ℚ)) hwne]
  intro x y hx hy
  have hcol : colLo fd.tileWidth x < colHi fd.tileWidth fd.imgWidth width x :=
    bounds_step htw1 hwQ hx
  have hrow : rowLo fd.tileHeight y <
      rowHi fd.tileHeight fd.imgHeight fd.height.toNat y :=
    bounds_step hth1 hnQ hy
  have harea : 0 < (tileAt frame fd.imgWidth fd.imgHeight fd.tileWidth fd.tileHeight
      width fd.height.toNat x y).width *
      (tileAt frame fd.imgWidth fd.imgHeight fd.tileWidth fd.tileHeight width
        fd.height.toNat x y).height := by
    unfold tileAt crop
    simp only
    have h1 : 0 < (colHi fd.tileWidth fd.imgWidth width x - colLo fd.tileWidth x).toNat := by
      omega
    have h2 : 0 < (rowHi fd.tileHeight fd.imgHeight fd.height.toNat y -
        rowLo fd.tileHeight y).toNat := by
      omega
    positivity
  refine ⟨harea, ?_⟩
  unfold GetAverageBrightness
  rw [if_neg (by omega)]
  rfl

/-- Witness for the amended C6 at a 4x4 source, width 2, scale 1, tile
(0, 0). -/
theorem c6_amended_positive_tiles_witness :
    0 < (tileAt (blackFrame 4 4) 4 4 2 2 2 (2 : ℤ).toNat 0 0).width *
        (tileAt (blackFrame 4 4) 4 4 2 2 2 (2 : ℤ).toNat 0 0).height ∧
    (GetAverageBrightness (tileAt (blackFrame 4 4) 4 4 2 2 2 (2 : ℤ).toNat 0 0)).isSome =
      true :=
  c6_amended_positive_tiles
    (by norm_num [GetFrameData, blackFrame, pyInt] :
      GetFrameData (blackFrame 4 4) 2 1 = Except.ok ⟨4, 4, 2, 2, 2⟩)
    (by norm_num) 0 0 (by decide) (by decide)

/-! Helper lemmas about the persistent sink. -/

lemma continuousSaveLoop_eq (frames : List (List String)) :
    ∀ (fileLines : List String) (i : ℕ),
      continuousSaveLoop fileLines frames i = fileLines ++ frameBlocks frames i := by
  induction frames with
  | nil =>
    intro fl i
    simp [continuousSaveLoop, frameBlocks]
  | cons img rest ih =>
    intro fl i
    rw [continuousSaveLoop, ih]
    simp [SaveFrame, frameBlocks]

lemma toString_int_toNat {m : ℤ} (h : 0 ≤ m) : toString m.toNat = toString m := by
  obtain ⟨n, rfl⟩ := Int.eq_ofNat_of_zero_le h
  rfl

/-- Counterexample to C7: in continuous mode the first frame is written in
append mode, not truncating, so a pre-existing file's content survives the
run and the resulting file is not just the frames of this run. -/
theorem c7_counterexample :
    continuousSaveLoop ["old"] [["#"]] 0 = ["old", "Frame 0", "#"] ∧
    continuousSaveLoop ["old"] [["#"]] 0 ≠ ["Frame 0", "#"] := by
  constructor <;> decide

/-- C7 amended: in continuous mode with a persistent sink every frame,
including the first, is written in append mode; each frame's block is a
marker line followed by the frame's content lines, so the resulting file
content is the file's prior content followed by the frames of this run in
order. -/
theorem c7_amended_append_only (fileLines : List String) (frames : List (List String)) :
    runPersistentSink fileLines 0 frames = fileLines ++ frameBlocks frames 0 ∧
    ∀ img idx, SaveFrame fileLines img idx 'a' =
      fileLines ++ (("Frame " ++ toString idx) :: img) := by
  constructor
  · unfold runPersistentSink
    rw [show processGifMode 0 frames.length = RunMode.continuousMode from rfl]
    exact continuousSaveLoop_eq frames fileLines 0
  · intro img idx
    unfold SaveFrame
    rw [if_neg (by decide)]

/-- Counterexample to C8: a requested single-frame index of 0 does not
fail: ProcessGif selects the continuous (all-frames) branch. -/
theorem c8_counterexample :
    processGifMode 0 3 = RunMode.continuousMode ∧
    (processGifMode 0 3).isFatal = false := by
  constructor <;> rfl

/-- C8 amended: for every requested 1-based single-frame index i, if i is
negative or exceeds the total available frame count (i = 0 instead
selecting all-frames mode), the run fails fatally with the out-of-range
error, and the diagnostic message states the requested index and the
total frame count. -/
theorem c8_amended_out_of_range (i : ℤ) (n : ℕ) (h : i < 0 ∨ (n : ℤ) < i) :
    processGifMode i n = RunMode.outOfRange
      ("Frame " ++ toString i ++ " is out of range. Total frames: " ++ toString n) := by
  unfold processGifMode frameOutOfRangeMsg
  rw [if_pos (show i ≠ 0 by omega),
    if_pos (show i - 1 < 0 ∨ (n : ℤ) ≤ i - 1 by omega)]

/-- Witness for the amended C8 at index 5 of 3 frames. -/
theorem c8_amended_out_of_range_witness :
    processGifMode 5 3 = RunMode.outOfRange
      ("Frame " ++ toString (5 : ℤ) ++ " is out of range. Total frames: " ++
        toString (3 : ℕ)) :=
  c8_amended_out_of_range 5 3 (by omega)

/-- C9: a frameToPrint of 0 selects the continuous (all-frames) branch of
ProcessGif rather than rendering frame 0, and every nonzero frameToPrint
greater than the total frame count fails with the out-of-range error. -/
theorem c9_zero_selects_continuous (i : ℤ) (n : ℕ) :
    processGifMode 0 n = RunMode.continuousMode ∧
    (i ≠ 0 → (n : ℤ) < i →
      processGifMode i n = RunMode.outOfRange (frameOutOfRangeMsg i n)) := by
  constructor
  · rfl
  · intro h1 h2
    unfold processGifMode
    rw [if_pos h1, if_pos (show i - 1 < 0 ∨ (n : ℤ) ≤ i - 1 by omega)]

/-- Witness for C9 at index 5 of 3 frames. -/
theorem c9_zero_selects_continuous_witness :
    processGifMode 0 3 = RunMode.continuousMode ∧
    processGifMode 5 3 = RunMode.outOfRange (frameOutOfRangeMsg 5 3) :=
  ⟨(c9_zero_selects_continuous 5 3).1,
    (c9_zero_selects_continuous 5 3).2 (by decide) (by decide)⟩

/-- C10: the frame-number marker written to the persistent sink uses the
zero-based frame index: requesting 1-based index k writes "Frame (k-1)"
as the first line of the truncated file, and in continuous mode the first
marker line appended is "Frame 0". -/
theorem c10_marker_zero_based (init : List String) (frames : List (List String))
    (k : ℤ) (h1 : 1 ≤ k) (h2 : k ≤ (frames.length : ℤ)) :
    (runPersistentSink init k frames).head? = some ("Frame " ++ toString (k - 1)) ∧
    (∀ img rest, frames = img :: rest →
      runPersistentSink init 0 frames =
        init ++ ("Frame 0" :: (img ++ frameBlocks rest 1))) := by
  constructor
  · have hmode : processGifMode k frames.length = RunMode.singleFrame (k - 1).toNat := by
      unfold processGifMode
      rw [if_pos (show k ≠ 0 by omega),
        if_neg (show ¬(k - 1 < 0 ∨ (frames.length : ℤ) ≤ k - 1) by omega)]
    unfold runPersistentSink
    rw [hmode]
    dsimp only
    unfold SaveFrame
    rw [if_pos rfl]
    simp only [List.head?_cons, Option.some.injEq]
    rw [toString_int_toNat (by omega)]
  · intro img rest hfr
    subst hfr
    unfold runPersistentSink
    rw [show processGifMode 0 (img :: rest).length = RunMode.continuousMode from rfl,
      continuousSaveLoop_eq, frameBlocks]
    rfl

/-- Witness for C10 with a two-frame run, requesting 1-based index 2. -/
theorem c10_marker_zero_based_witness :
    (runPersistentSink ["x"] 2 [["a"], ["b"]]).head? =
      some ("Frame " ++ toString ((2 : ℤ) - 1)) ∧
    (∀ img rest, ([["a"], ["b"]] : List (List String)) = img :: rest →
      runPersistentSink ["x"] 0 [["a"], ["b"]] =
        ["x"] ++ ("Frame 0" :: (img ++ frameBlocks rest 1))) :=
  c10_marker_zero_based ["x"] [["a"], ["b"]] 2 (by decide) (by decide)

end Gif2Ascii
